import Mathlib

/-!
Verification of the quant-engine backtesting harness.

The development shallowly embeds `quant_engine.py`: prices and cash are
idealised as exact rationals (`Rat`), the mutable `Portfolio` object becomes
explicit state passing, and a Python statement that can raise is modelled
with `Option` / `Except` (a `none` / `.error` is a raised exception).
-/

namespace QuantEngine

/-- State of `Portfolio` from `quant_engine.py`: `initial_cash`, `cash`,
`position` (units held) and `history` (the equity curve so far). -/
structure Portfolio where
  initial_cash : Rat
  cash : Rat
  position : Rat
  history : List Rat
deriving Repr, DecidableEq

/-- `Portfolio.__init__`: sets `cash = initial_cash`, `position = 0.0`,
`history = []`.  The constructor performs no validation of `initial_cash`. -/
def Portfolio.init (initial_cash : Rat) : Portfolio :=
  { initial_cash := initial_cash, cash := initial_cash, position := 0, history := [] }

/-- `Portfolio.__init__` as a fallible constructor: the Python constructor
contains no `raise`, so it always succeeds, for every `initial_cash`. -/
def Portfolio.make (initial_cash : Rat) : Option Portfolio :=
  some (Portfolio.init initial_cash)

/-- `Portfolio.value`: mark-to-market total value `cash + position * price`. -/
def Portfolio.value (p : Portfolio) (price : Rat) : Rat :=
  p.cash + p.position * price

/-- `Portfolio.update`: buy all-in when `trade_signal == 1 and position == 0`
(a division `cash / price` that raises `ZeroDivisionError` when `price == 0`,
modelled as `none`), sell all when `trade_signal == -1 and position > 0`,
otherwise leave cash and position alone; in every successful case append the
mark-to-market value of the post-transition state to `history`. -/
def Portfolio.update (p : Portfolio) (price : Rat) (trade_signal : Int) : Option Portfolio :=
  if trade_signal = 1 ∧ p.position = 0 then
    if price = 0 then none
    else
      let p1 : Portfolio := { p with position := p.cash / price, cash := 0 }
      some { p1 with history := p1.history ++ [p1.value price] }
  else if trade_signal = -1 ∧ 0 < p.position then
    let p1 : Portfolio := { p with cash := p.position * price, position := 0 }
    some { p1 with history := p1.history ++ [p1.value price] }
  else
    some { p with history := p.history ++ [p.value price] }

/-- Sequencing of `Portfolio.update` calls: feed `(price, trade_signal)`
pairs in order, propagating a raised exception (`none`). -/
def Portfolio.runSteps (p : Portfolio) (steps : List (Rat × Int)) : Option Portfolio :=
  match steps with
  | [] => some p
  | (price, sig) :: rest =>
    match p.update price sig with
    | none => none
    | some p1 => p1.runSteps rest

/-- Configuration of `MovingAverageCrossStrategy`: the two window lengths. -/
structure MovingAverageCrossStrategy where
  short_window : Nat
  long_window : Nat
deriving Repr, DecidableEq

/-- `MovingAverageCrossStrategy.__init__`: raises (here `none`) exactly when
`short_window >= long_window`. -/
def MovingAverageCrossStrategy.make (short_window long_window : Nat) :
    Option MovingAverageCrossStrategy :=
  if short_window ≥ long_window then none
  else some { short_window := short_window, long_window := long_window }

/-- `Series.rolling(w).mean()` at index `t`: the mean of the last `w` closes
ending at `t` when at least `w` observations exist, `NaN` (here `none`)
otherwise. -/
def rollingMeanAt (w : Nat) (close : List Rat) (t : Nat) : Option Rat :=
  if w ≤ t + 1 then some (((close.take (t + 1)).drop (t + 1 - w)).sum / (w : Rat))
  else none

/-- `Series.rolling(w).mean()` as a series aligned with `close`. -/
def rollingMean (w : Nat) (close : List Rat) : List (Option Rat) :=
  (List.range close.length).map (rollingMeanAt w close)

/-- `(short_ma > long_ma).astype(int)` pointwise: a comparison with `NaN`
(`none`) is `False`, hence `0`. -/
def signalCompare (a b : Option Rat) : Int :=
  match a, b with
  | some x, some y => if y < x then 1 else 0
  | _, _ => 0

/-- `Series.diff().fillna(0)`: first element becomes `0`, element `i + 1`
becomes `xs[i+1] - xs[i]`. -/
def diffFillZero (xs : List Int) : List Int :=
  match xs with
  | [] => []
  | _ :: rest => 0 :: List.zipWith (fun a b => a - b) rest xs

/-- `MovingAverageCrossStrategy.generate_signals`: the diff of the indicator
of `short MA > long MA`, with the leading `NaN` filled with `0`. -/
def MovingAverageCrossStrategy.generate_signals (s : MovingAverageCrossStrategy)
    (close : List Rat) : List Int :=
  diffFillZero (List.zipWith signalCompare
    (rollingMean s.short_window close) (rollingMean s.long_window close))

/-- The spec's `position(t)`: `1` when the short SMA at `t` is strictly
greater than the long SMA at `t` and both are defined, else `0`. -/
def smaPosition (short_window long_window : Nat) (close : List Rat) (t : Nat) : Int :=
  match rollingMeanAt short_window close t, rollingMeanAt long_window close t with
  | some a, some b => if b < a then 1 else 0
  | _, _ => 0

/-- Failure modes of `Backtester.run`: an exception raised by a step, or the
`ValueError` raised by `pd.Series` when the value list and the index have
different lengths. -/
inductive RunError where
  | stepFailure
  | lengthMismatch
deriving Repr, DecidableEq

/-- `Backtester.run` on an already-fetched price series (timestamp, close)
with an already-generated signal lookup `trades` (the `.get(time, 0)`
defaulting is part of `trades` being total): iterate the updates over the
backtester's portfolio, then build the equity series from the portfolio's
whole `history` indexed by `prices.index[: len(history)]`; `pd.Series`
raises when those lengths differ. -/
def Backtester.run (pf : Portfolio) (prices : List (Nat × Rat)) (trades : Nat → Int) :
    Except RunError (List (Nat × Rat)) :=
  match pf.runSteps (prices.map (fun pr => (pr.2, trades pr.1))) with
  | none => Except.error RunError.stepFailure
  | some pf1 =>
    let idx := (prices.map Prod.fst).take pf1.history.length
    if idx.length = pf1.history.length then Except.ok (idx.zip pf1.history)
    else Except.error RunError.lengthMismatch

/-- C7: round-trip scenario — from `initialCash = 100000`, prices
[100, 110, 90, 120] with events [Hold, Enter, Hold, Exit] produce the equity
curve [100000, 100000, 900000/11, 1200000/11] exactly. -/
theorem round_trip_scenario :
    ((Portfolio.init 100000).runSteps
        [(100, 0), (110, 1), (90, 0), (120, -1)]).map Portfolio.history =
      some [100000, 100000, 900000 / 11, 1200000 / 11] := by
  norm_num [Portfolio.runSteps, Portfolio.update, Portfolio.value, Portfolio.init]

/-- C1: for every state and positive price, an Enter while flat converts all
cash into `cash / price` units, an Exit while long liquidates at
`position * price`, any other event leaves cash and position unchanged, and
in every case exactly one mark-to-market observation, computed from the
post-transition state, is appended to the history. -/
theorem update_step_characterization (p : Portfolio) (price : Rat) (sig : Int)
    (hp : 0 < price) (hsig : sig = 1 ∨ sig = -1 ∨ sig = 0) :
    (sig = 1 ∧ p.position = 0 →
      p.update price sig = some ⟨p.initial_cash, 0, p.cash / price,
        p.history ++ [0 + p.cash / price * price]⟩) ∧
    (sig = -1 ∧ 0 < p.position →
      p.update price sig = some ⟨p.initial_cash, p.position * price, 0,
        p.history ++ [p.position * price + 0 * price]⟩) ∧
    (¬(sig = 1 ∧ p.position = 0) → ¬(sig = -1 ∧ 0 < p.position) →
      p.update price sig =
        some ⟨p.initial_cash, p.cash, p.position,
          p.history ++ [p.cash + p.position * price]⟩) := by
  refine ⟨?_, ?_, ?_⟩
  · rintro ⟨rfl, hpos⟩
    simp [Portfolio.update, Portfolio.value, hpos, hp.ne']
  · rintro ⟨rfl, hpos⟩
    have hne : ¬((-1 : Int) = 1 ∧ p.position = 0) := by
      rintro ⟨hc, -⟩; exact absurd hc (by norm_num)
    simp [Portfolio.update, Portfolio.value, hne, hpos]
  · intro hEnter hExit
    unfold Portfolio.update
    rw [if_neg hEnter, if_neg hExit]
    simp [Portfolio.value]

/-- C1 witness: entering at price 2 from a fresh portfolio holding 100. -/
theorem update_step_characterization_witness :
    (Portfolio.init 100).update 2 1 =
      some ⟨(Portfolio.init 100).initial_cash, 0, (Portfolio.init 100).cash / 2,
        (Portfolio.init 100).history ++ [0 + (Portfolio.init 100).cash / 2 * 2]⟩ :=
  (update_step_characterization (Portfolio.init 100) 2 1 (by norm_num) (Or.inl rfl)).1
    ⟨rfl, rfl⟩

/-- C3 counterexample: a step at the non-positive price `-5` does not fail at
all — it succeeds and mutates the portfolio by appending an equity
observation, contradicting the claim that it raises `InvalidPrice` and
leaves the state unchanged. -/
theorem update_negative_price_counterexample :
    (Portfolio.init 100000).update (-5) 0 =
      some ⟨100000, 100000, 0, [100000]⟩ := by
  norm_num [Portfolio.update, Portfolio.value, Portfolio.init]

/-- C3 amended: `update` performs no price validation.  The only failure is
the division `cash / price` raising `ZeroDivisionError`, which happens
exactly when `price = 0`, the signal is Enter and the position is flat; in
every other case — non-positive prices included — the step succeeds and
appends a mark-to-market observation to the history. -/
theorem update_failure_characterization (p : Portfolio) (price : Rat) (sig : Int) :
    (p.update price sig = none ↔ price = 0 ∧ sig = 1 ∧ p.position = 0) ∧
    (∀ p1, p.update price sig = some p1 →
      p1.history = p.history ++ [p1.value price]) := by
  constructor
  · unfold Portfolio.update
    split_ifs with h1 h0 h2 <;> simp_all
  · intro p1 hsome
    unfold Portfolio.update at hsome
    split_ifs at hsome with h1 h0 h2
    all_goals simp only [Option.some.injEq] at hsome
    all_goals subst hsome
    all_goals simp [Portfolio.value]

/-- C3 witness: at price 0 with an Enter signal while flat, the step fails,
exactly as the characterization states. -/
theorem update_failure_characterization_witness :
    (Portfolio.init 100).update 0 1 = none ↔
      (0 : Rat) = 0 ∧ (1 : Int) = 1 ∧ (Portfolio.init 100).position = 0 :=
  (update_failure_characterization (Portfolio.init 100) 0 1).1

/-- C4 counterexample: the portfolio constructor accepts the non-positive
`initialCash = -5` instead of failing with `InvalidConfiguration`. -/
theorem portfolio_make_no_validation_counterexample :
    Portfolio.make (-5) = some ⟨-5, -5, 0, []⟩ := rfl

/-- C4 amended: the strategy constructor fails exactly when
`short_window >= long_window`, detected at construction; the portfolio
constructor, however, performs no validation and succeeds for every
`initial_cash`, non-positive values included. -/
theorem construction_validation (short_window long_window : Nat) (c : Rat) :
    (MovingAverageCrossStrategy.make short_window long_window = none ↔
      long_window ≤ short_window) ∧
    (Portfolio.make c).isSome = true := by
  constructor
  · unfold MovingAverageCrossStrategy.make
    split_ifs with h
    · simpa using h
    · simpa using h
  · rfl

/-- C4 witness: the swapped windows 200/50 are rejected while a negative
initial cash is accepted. -/
theorem construction_validation_witness :
    (MovingAverageCrossStrategy.make 200 50 = none ↔ 50 ≤ 200) ∧
    (Portfolio.make (-5)).isSome = true :=
  construction_validation 200 50 (-5)

/-- C10: any trade signal other than Enter-while-flat or Exit-while-long —
out-of-domain values such as 2 or -5 included — raises no error, leaves cash
and position unchanged, and still appends one mark-to-market observation. -/
theorem update_out_of_domain_signal_hold (p : Portfolio) (price : Rat) (sig : Int)
    (hp : 0 < price) (hEnter : ¬(sig = 1 ∧ p.position = 0))
    (hExit : ¬(sig = -1 ∧ 0 < p.position)) :
    p.update price sig = some { p with history := p.history ++ [p.value price] } := by
  unfold Portfolio.update
  rw [if_neg hEnter, if_neg hExit]

/-- C10 witness: the out-of-domain signal 2 on a fresh portfolio is a Hold
that appends one observation. -/
theorem update_out_of_domain_signal_hold_witness :
    (Portfolio.init 100).update 3 2 = some ⟨100, 100, 0, [100]⟩ := by
  have h := update_out_of_domain_signal_hold (Portfolio.init 100) 3 2 (by norm_num)
    (by norm_num) (by norm_num)
  simpa [Portfolio.init, Portfolio.value] using h

/-- Helper: the effect of a successful `update` on cash and position, split
by the branch taken, remembering which guards failed in the Hold branch. -/
theorem update_cash_position (p : Portfolio) (price : Rat) (sig : Int) (p1 : Portfolio)
    (h : p.update price sig = some p1) :
    (sig = 1 ∧ p.position = 0 ∧ p1.cash = 0 ∧ p1.position = p.cash / price) ∨
    (sig = -1 ∧ 0 < p.position ∧ p1.cash = p.position * price ∧ p1.position = 0) ∨
    (¬(sig = 1 ∧ p.position = 0) ∧ ¬(sig = -1 ∧ 0 < p.position) ∧
      p1.cash = p.cash ∧ p1.position = p.position) := by
  unfold Portfolio.update at h
  split_ifs at h with h1 h0 h2
  all_goals simp only [Option.some.injEq] at h
  all_goals subst h
  · exact Or.inl ⟨h1.1, h1.2, rfl, rfl⟩
  · exact Or.inr (Or.inl ⟨h2.1, h2.2, rfl, rfl⟩)
  · exact Or.inr (Or.inr ⟨h1, h2, rfl, rfl⟩)

/-- Helper: a single successful `update` preserves the all-in/all-out
exclusivity disjunction. -/
theorem update_preserves_exclusivity (p p1 : Portfolio) (price : Rat) (sig : Int)
    (hinv : p.position = 0 ∨ p.cash = 0) (h : p.update price sig = some p1) :
    p1.position = 0 ∨ p1.cash = 0 := by
  rcases update_cash_position p price sig p1 h with
    ⟨-, -, hc, -⟩ | ⟨-, -, -, hpos⟩ | ⟨-, -, hc, hpos⟩
  · exact Or.inr hc
  · exact Or.inl hpos
  · rw [hc, hpos]; exact hinv

/-- C2: exclusivity invariant — starting from `Portfolio.init`, after every
sequence of successful steps, the position is zero or the cash is zero;
they are never both positive. -/
theorem runSteps_exclusivity (initial_cash : Rat) (steps : List (Rat × Int))
    (p1 : Portfolio)
    (h : (Portfolio.init initial_cash).runSteps steps = some p1) :
    p1.position = 0 ∨ p1.cash = 0 := by
  have main : ∀ (steps : List (Rat × Int)) (p q : Portfolio),
      (p.position = 0 ∨ p.cash = 0) → p.runSteps steps = some q →
      q.position = 0 ∨ q.cash = 0 := by
    intro steps
    induction steps with
    | nil =>
      intro p q hinv hrun
      unfold Portfolio.runSteps at hrun
      simp only [Option.some.injEq] at hrun
      subst hrun
      exact hinv
    | cons s rest ih =>
      obtain ⟨price, sig⟩ := s
      intro p q hinv hrun
      unfold Portfolio.runSteps at hrun
      cases hu : p.update price sig with
      | none => rw [hu] at hrun; simp at hrun
      | some p2 =>
        rw [hu] at hrun
        exact ih p2 q (update_preserves_exclusivity p p2 price sig hinv hu) hrun
  exact main steps (Portfolio.init initial_cash) p1 (Or.inl rfl) h

/-- C2 witness: one Enter step from cash 5 at price 1 reaches the state
with cash 0 and position 5, which satisfies the invariant. -/
theorem runSteps_exclusivity_witness :
    (⟨5, 0, 5, [5]⟩ : Portfolio).position = 0 ∨ (⟨5, 0, 5, [5]⟩ : Portfolio).cash = 0 :=
  runSteps_exclusivity 5 [(1, 1)] ⟨5, 0, 5, [5]⟩
    (by norm_num [Portfolio.runSteps, Portfolio.update, Portfolio.value, Portfolio.init])

/-- C6: idempotence of repeated identical signals — a second consecutive
Enter at the same positive price changes neither cash nor position, and
likewise a second consecutive Exit while flat. -/
theorem update_idempotent (p : Portfolio) (price : Rat) (hp : 0 < price) :
    (∀ p1 p2, p.update price 1 = some p1 → p1.update price 1 = some p2 →
      p2.cash = p1.cash ∧ p2.position = p1.position) ∧
    (p.position = 0 → ∀ q1 q2, p.update price (-1) = some q1 →
      q1.update price (-1) = some q2 → q2.cash = q1.cash ∧ q2.position = q1.position) := by
  constructor
  · intro p1 p2 h1 h2
    rcases update_cash_position p price 1 p1 h1 with
      ⟨-, -, hc1, hpos1⟩ | ⟨hs, -⟩ | ⟨hne, -, hc1, hpos1⟩
    · rcases update_cash_position p1 price 1 p2 h2 with
        ⟨-, hflat2, hc2, hpos2⟩ | ⟨hs, -⟩ | ⟨-, -, hc2, hpos2⟩
      · refine ⟨by rw [hc2, hc1], ?_⟩
        rw [hpos2, hc1, zero_div, hflat2]
      · exact absurd hs (by norm_num)
      · exact ⟨hc2, hpos2⟩
    · exact absurd hs (by norm_num)
    · have hpnz : p.position ≠ 0 := fun hz => hne ⟨rfl, hz⟩
      rcases update_cash_position p1 price 1 p2 h2 with
        ⟨-, hflat2, -, -⟩ | ⟨hs, -⟩ | ⟨-, -, hc2, hpos2⟩
      · exact absurd (hpos1 ▸ hflat2) hpnz
      · exact absurd hs (by norm_num)
      · exact ⟨hc2, hpos2⟩
  · intro hflat q1 q2 h1 h2
    rcases update_cash_position p price (-1) q1 h1 with
      ⟨hs, -⟩ | ⟨-, hpos, -⟩ | ⟨-, -, hc1, hpos1⟩
    · exact absurd hs (by norm_num)
    · rw [hflat] at hpos; exact absurd hpos (lt_irrefl 0)
    · rcases update_cash_position q1 price (-1) q2 h2 with
        ⟨hs, -⟩ | ⟨-, hpos, -⟩ | ⟨-, -, hc2, hpos2⟩
      · exact absurd hs (by norm_num)
      · rw [hpos1, hflat] at hpos; exact absurd hpos (lt_irrefl 0)
      · exact ⟨hc2, hpos2⟩

/-- C6 witness: entering twice at price 2 from cash 100 — the second Enter
leaves cash 0 and position 50 untouched. -/
theorem update_idempotent_witness :
    (⟨100, 0, 50, [100, 100]⟩ : Portfolio).cash = (⟨100, 0, 50, [100]⟩ : Portfolio).cash ∧
    (⟨100, 0, 50, [100, 100]⟩ : Portfolio).position =
      (⟨100, 0, 50, [100]⟩ : Portfolio).position :=
  (update_idempotent (Portfolio.init 100) 2 (by norm_num)).1 ⟨100, 0, 50, [100]⟩
    ⟨100, 0, 50, [100, 100]⟩
    (by norm_num [Portfolio.update, Portfolio.value, Portfolio.init])
    (by norm_num [Portfolio.update, Portfolio.value])

/-- Helper: `diffFillZero` preserves length. -/
theorem length_diffFillZero (xs : List Int) : (diffFillZero xs).length = xs.length := by
  cases xs with
  | nil => rfl
  | cons x rest =>
    simp only [diffFillZero, List.length_cons, List.length_zipWith]
    omega

/-- Helper: the position series has one entry per close. -/
theorem length_posList (a b : Nat) (close : List Rat) :
    (List.zipWith signalCompare (rollingMean a close) (rollingMean b close)).length =
      close.length := by
  simp [List.length_zipWith, rollingMean]

/-- Helper: entry `i` of the position series is the spec's `position(i)`. -/
theorem posList_getD (a b : Nat) (close : List Rat) (i : Nat) (hi : i < close.length) :
    (List.zipWith signalCompare (rollingMean a close) (rollingMean b close)).getD i 0 =
      smaPosition a b close i := by
  have hlen := length_posList a b close
  rw [List.getD_eq_getElem _ _ (by rw [hlen]; exact hi)]
  rw [List.getElem_zipWith]
  unfold rollingMean
  rw [List.getElem_map, List.getElem_range]
  cases ha : rollingMeanAt a close i <;> cases hb : rollingMeanAt b close i <;>
    simp [signalCompare, smaPosition, ha, hb]

/-- Helper: entry `i + 1` of the diffed series is the difference of
consecutive entries of the original series. -/
theorem diffFillZero_getD_succ (xs : List Int) (i : Nat) (hi : i + 1 < xs.length) :
    (diffFillZero xs).getD (i + 1) 0 = xs.getD (i + 1) 0 - xs.getD i 0 := by
  cases xs with
  | nil => simp at hi
  | cons x rest =>
    have h1 : i < rest.length := by
      simp only [List.length_cons] at hi; omega
    have hz : i < (List.zipWith (fun a b => a - b) rest (x :: rest)).length := by
      simp only [List.length_zipWith, List.length_cons]
      omega
    rw [show diffFillZero (x :: rest) =
      0 :: List.zipWith (fun a b => a - b) rest (x :: rest) from rfl]
    rw [List.getD_cons_succ, List.getD_cons_succ,
      List.getD_eq_getElem _ _ hz, List.getElem_zipWith,
      List.getD_eq_getElem _ _ h1, List.getD_eq_getElem _ _ (by omega : i < (x :: rest).length)]

/-- C5: `generate_signals` is aligned 1:1 with the input closes, its first
entry is Hold, and every later entry is `position(t) - position(t-1)` for
the spec's crossover position indicator. -/
theorem generate_signals_characterization (short_window long_window : Nat)
    (close : List Rat) (hw : 0 < short_window) (ho : short_window < long_window) :
    ((⟨short_window, long_window⟩ : MovingAverageCrossStrategy).generate_signals close).length
        = close.length ∧
    ((⟨short_window, long_window⟩ : MovingAverageCrossStrategy).generate_signals close).getD 0 0
        = 0 ∧
    ∀ i, i + 1 < close.length →
      ((⟨short_window, long_window⟩ : MovingAverageCrossStrategy).generate_signals
            close).getD (i + 1) 0 =
        smaPosition short_window long_window close (i + 1) -
          smaPosition short_window long_window close i := by
  unfold MovingAverageCrossStrategy.generate_signals
  refine ⟨?_, ?_, ?_⟩
  · rw [length_diffFillZero, length_posList]
  · cases hx : List.zipWith signalCompare (rollingMean short_window close)
        (rollingMean long_window close) with
    | nil => rfl
    | cons y ys => rfl
  · intro i hi
    have hlen := length_posList short_window long_window close
    rw [diffFillZero_getD_succ _ i (by rw [hlen]; exact hi)]
    rw [posList_getD _ _ _ _ hi, posList_getD _ _ _ _ (by omega)]

/-- C5 witness: with windows 1 and 2 on closes [1, 2, 3], the signal at
index 1 is the position difference, an Enter. -/
theorem generate_signals_characterization_witness :
    ((⟨1, 2⟩ : MovingAverageCrossStrategy).generate_signals [1, 2, 3]).getD 1 0 =
      smaPosition 1 2 [1, 2, 3] 1 - smaPosition 1 2 [1, 2, 3] 0 :=
  (generate_signals_characterization 1 2 [1, 2, 3] (by norm_num) (by norm_num)).2.2 0
    (by simp)

/-- Helper: a successful `update` appends exactly one observation. -/
theorem update_history_append (p p1 : Portfolio) (price : Rat) (sig : Int)
    (h : p.update price sig = some p1) :
    p1.history = p.history ++ [p1.value price] := by
  unfold Portfolio.update at h
  split_ifs at h with h1 h0 h2
  all_goals simp only [Option.some.injEq] at h
  all_goals subst h
  all_goals simp [Portfolio.value]

/-- Helper: a successful sequence of steps grows the history by exactly one
entry per step. -/
theorem runSteps_history_length (steps : List (Rat × Int)) (p p1 : Portfolio)
    (h : p.runSteps steps = some p1) :
    p1.history.length = p.history.length + steps.length := by
  have main : ∀ (steps : List (Rat × Int)) (p q : Portfolio),
      p.runSteps steps = some q → q.history.length = p.history.length + steps.length := by
    intro steps
    induction steps with
    | nil =>
      intro p q hrun
      unfold Portfolio.runSteps at hrun
      simp only [Option.some.injEq] at hrun
      subst hrun
      simp
    | cons s rest ih =>
      obtain ⟨price, sig⟩ := s
      intro p q hrun
      unfold Portfolio.runSteps at hrun
      cases hu : p.update price sig with
      | none => rw [hu] at hrun; simp at hrun
      | some p2 =>
        rw [hu] at hrun
        have hlen := ih p2 q hrun
        have happ := update_history_append p p2 price sig hu
        rw [hlen, happ]
        simp only [List.length_append, List.length_cons, List.length_nil]
        omega
  exact main steps p p1 h

/-- C8 counterexample: a run invocation whose portfolio still carries an
earlier run's one-entry history has every step succeed, yet returns no
equity curve at all — the series construction fails on the length
mismatch. -/
theorem run_stale_history_counterexample :
    Backtester.run (Portfolio.init 100000) [(0, 100)] (fun _ => 0) =
      Except.ok [(0, 100000)] ∧
    ((⟨100000, 100000, 0, [100000]⟩ : Portfolio).runSteps
        [((100 : Rat), (0 : Int))]).isSome = true ∧
    Backtester.run (⟨100000, 100000, 0, [100000]⟩ : Portfolio) [(0, 100)] (fun _ => 0) =
      Except.error RunError.lengthMismatch := by
  refine ⟨?_, ?_, ?_⟩ <;>
    norm_num [Backtester.run, Portfolio.runSteps, Portfolio.update, Portfolio.value,
      Portfolio.init]

/-- C8 amended: for every run starting from a portfolio with an empty
equity history, a fully successful run returns the curve zipping the
originating timestamps, in price-series order, with one entry per price
point; a failing step yields an error and no curve. -/
theorem run_fresh_characterization (pf : Portfolio) (prices : List (Nat × Rat))
    (trades : Nat → Int) (hfresh : pf.history = []) :
    (∀ pf1, pf.runSteps (prices.map (fun pr => (pr.2, trades pr.1))) = some pf1 →
      Backtester.run pf prices trades =
        Except.ok ((prices.map Prod.fst).zip pf1.history) ∧
      ((prices.map Prod.fst).zip pf1.history).length = prices.length ∧
      ((prices.map Prod.fst).zip pf1.history).map Prod.fst = prices.map Prod.fst) ∧
    (pf.runSteps (prices.map (fun pr => (pr.2, trades pr.1))) = none →
      Backtester.run pf prices trades = Except.error RunError.stepFailure) := by
  constructor
  · intro pf1 hrun
    have hlen : pf1.history.length = prices.length := by
      have h := runSteps_history_length _ _ _ hrun
      rw [hfresh] at h
      simpa using h
    have hidx : (prices.map Prod.fst).take pf1.history.length = prices.map Prod.fst := by
      rw [hlen, ← List.length_map prices Prod.fst, List.take_length]
    refine ⟨?_, ?_, ?_⟩
    · simp only [Backtester.run, hrun, hidx]
      rw [if_pos (by simp [hlen])]
    · simp [hlen]
    · exact List.map_fst_zip _ _ (by simp [hlen])
  · intro hnone
    simp only [Backtester.run, hnone]

/-- C8 witness: a fresh one-point run returns the one-point curve. -/
theorem run_fresh_characterization_witness :
    Backtester.run (Portfolio.init 100000) [(0, 100)] (fun _ => 0) =
      Except.ok [(0, 100000)] ∧
    ([((0 : Nat), (100000 : Rat))].length = 1) ∧
    ([((0 : Nat), (100000 : Rat))].map Prod.fst = [0]) :=
  (run_fresh_characterization (Portfolio.init 100000) [(0, 100)] (fun _ => 0) rfl).1
    ⟨100000, 100000, 0, [100000]⟩
    (by norm_num [Portfolio.runSteps, Portfolio.update, Portfolio.value, Portfolio.init])

/-- Helper: once the portfolio's history is non-empty, `run` can never
return a curve: its index is capped at the price-series length while the
history is strictly longer. -/
theorem run_stale_never_ok (pf : Portfolio) (prices : List (Nat × Rat))
    (trades : Nat → Int) (hne : pf.history ≠ []) :
    (Backtester.run pf prices trades).isOk = false := by
  unfold Backtester.run
  cases hu : pf.runSteps (prices.map (fun pr => (pr.2, trades pr.1))) with
  | none => rfl
  | some pf1 =>
    have hlen := runSteps_history_length _ _ _ hu
    have hpos : 0 < pf.history.length := List.length_pos.mpr hne
    dsimp only
    rw [if_neg ?_]
    · rfl
    · simp only [List.length_take, List.length_map, hlen]
      omega

/-- C9 amended: state persists across runs — after any successful first run
over a non-empty price series, from a freshly initialized portfolio, every
subsequent `run` on the same (now mutated) portfolio returns no equity
curve at all, rather than repeating the first run's curve. -/
theorem run_persistence (initial_cash : Rat) (prices prices2 : List (Nat × Rat))
    (trades trades2 : Nat → Int) (curve : List (Nat × Rat)) (pf1 : Portfolio)
    (hne : prices ≠ [])
    (hsteps : (Portfolio.init initial_cash).runSteps
        (prices.map (fun pr => (pr.2, trades pr.1))) = some pf1)
    (hfirst : Backtester.run (Portfolio.init initial_cash) prices trades =
        Except.ok curve) :
    (Backtester.run pf1 prices2 trades2).isOk = false := by
  apply run_stale_never_ok
  have hlen := runSteps_history_length _ _ _ hsteps
  intro hnil
  rw [hnil] at hlen
  simp only [Portfolio.init, List.length_nil, List.length_map, Nat.zero_add] at hlen
  exact hne (List.length_eq_zero.mp hlen.symm)

/-- C9 witness: the second run on the mutated portfolio of a successful
one-point run fails to return a curve. -/
theorem run_persistence_witness :
    (Backtester.run (⟨1000, 0, 20, [1000]⟩ : Portfolio) [(7, 50)] (fun _ => 1)).isOk =
      false :=
  run_persistence 1000 [(7, 50)] [(7, 50)] (fun _ => 1) (fun _ => 1) [(7, 1000)]
    ⟨1000, 0, 20, [1000]⟩ (by simp)
    (by norm_num [Portfolio.runSteps, Portfolio.update, Portfolio.value, Portfolio.init])
    (by norm_num [Backtester.run, Portfolio.runSteps, Portfolio.update, Portfolio.value,
      Portfolio.init])

/-- C9 counterexample: two successive `run` calls on the same backtester do
not return equal curves — the first returns its curve, the second fails
with the length mismatch instead of returning anything. -/
theorem run_not_repeatable_counterexample :
    Backtester.run (Portfolio.init 1000) [(7, 50)] (fun _ => 1) =
      Except.ok [(7, 1000)] ∧
    (Portfolio.init 1000).runSteps [((50 : Rat), (1 : Int))] =
      some ⟨1000, 0, 20, [1000]⟩ ∧
    Backtester.run (⟨1000, 0, 20, [1000]⟩ : Portfolio) [(7, 50)] (fun _ => 1) =
      Except.error RunError.lengthMismatch := by
  refine ⟨?_, ?_, ?_⟩ <;>
    norm_num [Backtester.run, Portfolio.runSteps, Portfolio.update, Portfolio.value,
      Portfolio.init]

end QuantEngine
